import Mathlib

/-!
Verification development for the code996 commit-statistics engine.

The definitions below are a shallow embedding of the TypeScript sources:
author-statistics merging (src/cli/commands/ranking.ts), the ranking score
(calculateRankingScore in ranking.ts), the date helpers calculateDaysRange and
parseYearOption (src/utils/date-parser.ts and src/cli/commands/common/time-range.ts),
and the two time-range resolvers (src/cli/commands/analyze.ts and the shared
time-range module).

Modelling conventions:
- JavaScript numbers that hold commit counts become Nat; the derived index996
  and overTimeRadio values become exact rationals (the code computes them with
  floating point; the spec asks for equality up to floating-point tolerance,
  so the rational model is the idealized exact semantics).
- Math.round on a nonnegative argument is floor (q + 1/2); Math.ceil is Int.ceil.
- A JS Map becomes an association list kept in insertion order, with the same
  get/set semantics (set on an existing key updates in place, otherwise appends).
- Calendar dates become whole-day numbers counted from 1970-01-01 (UTC), with
  explicit civil-calendar conversion functions for formatting, mirroring the
  whole-day UTC arithmetic of the source.
-/

/-- JS Math.round for the nonnegative arguments used by this code base:
round half toward positive infinity, i.e. the floor of q + 1/2. -/
def jsRound (q : ℚ) : ℤ := ⌊q + 1 / 2⌋

/-- JS String.prototype.toLowerCase, modelled characterwise. -/
def jsToLower (s : String) : String :=
  String.mk (s.toList.map Char.toLower)

/-- JS String.prototype.trim: strip leading and trailing whitespace. -/
def jsTrim (s : String) : String :=
  String.mk (((s.toList.dropWhile Char.isWhitespace).reverse.dropWhile Char.isWhitespace).reverse)

/-- Author identity as produced by the merge map: a display name and an email. -/
structure AuthorIdentity where
  name : String
  email : String
deriving DecidableEq

/-- Per-author statistics record, mirroring the AuthorStats interface of
ranking.ts (the display string index996Str is a presentation field derived
from index996 by toFixed and is not modelled). -/
structure AuthorStats where
  name : String
  email : String
  totalCommits : ℕ
  workingHourCommits : ℕ
  overtimeCommits : ℕ
  weekdayCommits : ℕ
  weekendCommits : ℕ
  index996 : ℚ
  overTimeRadio : ℚ
deriving DecidableEq

/-- The weekend-corrected overtime percentage recomputed from bucket counts,
exactly as in ranking.ts lines 251-259: with y working-hour, x overtime,
m weekday and n weekend commits, it is ceil(round(x + y*n/(m+n)) / (y+x) * 100). -/
def overTimeRadioOfCounts (y x m n : ℕ) : ℤ :=
  ⌈(((jsRound ((x : ℚ) + (y : ℚ) * (n : ℚ) / ((m : ℚ) + (n : ℚ)))) : ℚ) / ((y : ℚ) + (x : ℚ))) * 100⌉

/-- Folding one incoming AuthorStats record into an existing accumulated record,
mirroring the body of the existing-entry branch of mergeAuthorStats
(ranking.ts lines 237-259): counts are summed, index996 becomes the
commit-count-weighted average computed against the updated total, and
overTimeRadio is recomputed from the summed counts when both summed
denominators are positive. -/
def mergeInto (e s : AuthorStats) : AuthorStats :=
  let tot := e.totalCommits + s.totalCommits
  let wh := e.workingHourCommits + s.workingHourCommits
  let ot := e.overtimeCommits + s.overtimeCommits
  let wd := e.weekdayCommits + s.weekdayCommits
  let we := e.weekendCommits + s.weekendCommits
  let idx : ℚ :=
    (e.index996 * ((tot : ℚ) - (s.totalCommits : ℚ)) + s.index996 * (s.totalCommits : ℚ)) / (tot : ℚ)
  let radio : ℚ :=
    if 0 < wd + we ∧ 0 < wh + ot then ((overTimeRadioOfCounts wh ot wd we : ℤ) : ℚ)
    else e.overTimeRadio
  { name := e.name
    email := e.email
    totalCommits := tot
    workingHourCommits := wh
    overtimeCommits := ot
    weekdayCommits := wd
    weekendCommits := we
    index996 := idx
    overTimeRadio := radio }

/-- The merge map produced by AuthorMerger: lowercase email to primary identity. -/
abbrev MergeMap := List (String × AuthorIdentity)

/-- The accumulator Map of mergeAuthorStats: lowercase target email to the
accumulated AuthorStats, in insertion order like a JS Map. -/
abbrev MergedMap := List (String × AuthorStats)

/-- Lookup in the merge map (JS Map.get). -/
def mapGetId (m : MergeMap) (k : String) : Option AuthorIdentity :=
  match m with
  | [] => none
  | p :: rest => if p.1 = k then some p.2 else mapGetId rest k

/-- Lookup in the accumulator map (JS Map.get). -/
def mapGet (m : MergedMap) (k : String) : Option AuthorStats :=
  match m with
  | [] => none
  | p :: rest => if p.1 = k then some p.2 else mapGet rest k

/-- In-place update of an existing key in the accumulator map (JS Map.set on a
key that is already present: the entry keeps its position). -/
def mapSet (m : MergedMap) (k : String) (v : AuthorStats) : MergedMap :=
  match m with
  | [] => []
  | p :: rest => if p.1 = k then (p.1, v) :: rest else p :: mapSet rest k v

/-- The primary name and email an incoming record is attributed to: the merge
map entry for the lowercased email when present, otherwise the record itself. -/
def targetIdentity (mm : MergeMap) (s : AuthorStats) : String × String :=
  match mapGetId mm (jsToLower s.email) with
  | some p => (p.name, p.email)
  | none => (s.name, s.email)

/-- The accumulator key of an incoming record: the lowercased target email. -/
def targetKey (mm : MergeMap) (s : AuthorStats) : String :=
  jsToLower (targetIdentity mm s).2

/-- The record stored when a key is first seen: the incoming stats carrying the
primary identity name and email. -/
def initRecord (mm : MergeMap) (s : AuthorStats) : AuthorStats :=
  { s with name := (targetIdentity mm s).1, email := (targetIdentity mm s).2 }

/-- One iteration of the mergeAuthorStats loop body. -/
def step (mm : MergeMap) (acc : MergedMap) (s : AuthorStats) : MergedMap :=
  match mapGet acc (targetKey mm s) with
  | some e => mapSet acc (targetKey mm s) (mergeInto e s)
  | none => acc ++ [(targetKey mm s, initRecord mm s)]

/-- The whole loop of mergeAuthorStats, producing the accumulator map. -/
def mergeFold (mm : MergeMap) (stats : List AuthorStats) : MergedMap :=
  stats.foldl (step mm) []

/-- mergeAuthorStats from ranking.ts: fold every record into the map and return
the accumulated values in insertion order (Array.from of Map.values). -/
def mergeAuthorStats (stats : List AuthorStats) (mm : MergeMap) : List AuthorStats :=
  (mergeFold mm stats).map Prod.snd

/-- A tuple packing the statistics fields of a record that the merge claims
compare: the five counts, index996 and overTimeRadio (identity fields and the
display string are excluded by the claims). -/
def statsProj (s : AuthorStats) : ℕ × ℕ × ℕ × ℕ × ℕ × ℚ × ℚ :=
  (s.totalCommits, s.workingHourCommits, s.overtimeCommits, s.weekdayCommits,
    s.weekendCommits, s.index996, s.overTimeRadio)

/-- calculateRankingScore from ranking.ts lines 182-196: a negative index996 is
returned directly; otherwise the index is damped by
min(1, log10(max(1, totalCommits)) / 2) and a saturating overtime bonus
min(overtimeCommits, 50) / 5 is added. -/
noncomputable def calculateRankingScore (stats : AuthorStats) : ℝ :=
  if stats.index996 < 0 then (stats.index996 : ℝ)
  else
    (stats.index996 : ℝ) * min 1 (Real.logb 10 (max 1 (stats.totalCommits : ℝ)) / 2)
      + (min stats.overtimeCommits 50 : ℕ) / 5

/-! Calendar arithmetic: whole days since 1970-01-01 and the civil-calendar
conversions used to format and shift dates (the UTC whole-day arithmetic that
the source performs through Date / dayjs). -/

/-- Civil date of a day number (days since 1970-01-01), as (year, month, day).
Standard Gregorian-calendar conversion; intended for day numbers at or after
the year 1677, where every intermediate quantity is nonnegative. -/
def civilFromDays (z : ℤ) : ℤ × ℤ × ℤ :=
  let zs := z + 719468
  let era := zs / 146097
  let doe := zs - era * 146097
  let yoe := (doe - doe / 1460 + doe / 36524 - doe / 146096) / 365
  let y := yoe + era * 400
  let doy := doe - (365 * yoe + yoe / 4 - yoe / 100)
  let mp := (5 * doy + 2) / 153
  let d := doy - (153 * mp + 2) / 5 + 1
  let m := mp + (if mp < 10 then 3 else -9)
  (y + (if m ≤ 2 then 1 else 0), m, d)

/-- Day number (days since 1970-01-01) of a civil date. -/
def daysFromCivil (y m d : ℤ) : ℤ :=
  let ys := y - (if m ≤ 2 then 1 else 0)
  let era := ys / 400
  let yoe := ys - era * 400
  let doy := (153 * (m + (if 2 < m then -3 else 9)) + 2) / 5 + d - 1
  let doe := yoe * 365 + yoe / 4 - yoe / 100 + doy
  era * 146097 + doe - 719468

/-- Two-digit zero padding of a month or day component (padStart(2, "0")). -/
def pad2 (n : ℤ) : String :=
  if n < 10 then "0" ++ toString n else toString n

/-- Format a day number as YYYY-MM-DD, as formatDate / formatUTCDate do. -/
def formatDay (z : ℤ) : String :=
  match civilFromDays z with
  | (y, m, d) => toString y ++ "-" ++ pad2 m ++ "-" ++ pad2 d

/-- A resolved since/until window with an optional note, as returned by
calculateDaysRange and parseYearOption. -/
structure DateRange where
  since : String
  untilStr : String
  note : Option String
deriving DecidableEq

/-- calculateDaysRange from the date-parser module: today is the current date
as a day number; the days argument is the JS number passed in, where none
models a non-integer (NaN) value. Non-integer or non-positive input is a fatal
input error (process.exit), modelled as Except.error; otherwise the window is
the last N whole days ending today. -/
def calculateDaysRange (today : ℤ) (days : Option ℤ) : Except Unit DateRange :=
  match days with
  | none => .error ()
  | some d =>
    if d ≤ 0 then .error ()
    else .ok
      { since := formatDay (today - (d - 1))
        untilStr := formatDay today
        note := some ("最近" ++ toString d ++ "天") }

/-- Digits of a decimal string to a number (the effect of parseInt on an
all-digit string). -/
def digitsToNat (cs : List Char) : ℕ :=
  cs.foldl (fun a c => a * 10 + (c.toNat - 48)) 0

/-- Match of the single-year regex (four digits anchored at both ends). -/
def matchSingleYear (s : String) : Option ℕ :=
  if s.toList.length = 4 ∧ s.toList.all Char.isDigit then some (digitsToNat s.toList) else none

/-- Match of the year-range regex (four digits, a dash, four digits, anchored). -/
def matchYearRange (s : String) : Option (ℕ × ℕ) :=
  if s.toList.length = 9 ∧ (s.toList.take 4).all Char.isDigit ∧ s.toList.getD 4 ' ' = '-'
      ∧ (s.toList.drop 5).all Char.isDigit then
    some (digitsToNat (s.toList.take 4), digitsToNat (s.toList.drop 5))
  else none

/-- parseYearOption from the date-parser and shared time-range modules (the two
copies have identical logic): the input is trimmed, a YYYY1-YYYY2 range or a
single YYYY is accepted, years below 1970 or a start year above the end year
are a fatal input error (process.exit), as is any other shape. -/
def parseYearOption (yearStr : String) : Except Unit DateRange :=
  match matchYearRange (jsTrim yearStr) with
  | some (a, b) =>
    if a < 1970 ∨ b < 1970 ∨ b < a then .error ()
    else .ok
      { since := toString a ++ "-01-01"
        untilStr := toString b ++ "-12-31"
        note := some (toString a ++ "-" ++ toString b ++ "年") }
  | none =>
    match matchSingleYear (jsTrim yearStr) with
    | some y =>
      if y < 1970 then .error ()
      else .ok
        { since := toString y ++ "-01-01"
          untilStr := toString y ++ "-12-31"
          note := some (toString y ++ "年") }
    | none => .error ()

/-! The time-range resolvers. The collector lookup of the most recent commit
date is modelled as an Except value (error models a thrown lookup) around an
optional day number; user options are modelled with Option fields where none
stands for an absent or falsy flag. -/

/-- The mode of a resolved time range. -/
inductive TimeRangeMode where
  | allTime
  | custom
  | autoLastCommit
  | fallback
deriving DecidableEq

/-- The result of a resolver: optional bounds, a mode and an optional note. -/
structure TimeRangeResult where
  since : Option String
  untilStr : Option String
  mode : TimeRangeMode
  note : Option String
deriving DecidableEq

/-- The user options a resolver consumes. The days field is doubly optional:
the outer layer models an absent or falsy flag, the inner layer models the
parsed numeric value where none is a non-integer (NaN). -/
structure ResolveOptions where
  allTime : Bool
  days : Option (Option ℤ)
  year : Option String
  since : Option String
  untilStr : Option String

/-- Modelled from the spec: calculateTimeRange (src/utils/terminal) is not in
the provided sources; per spec section 4.1 the generic fallback window is
until = today and since = today - 365 days. -/
def calculateTimeRange (today : ℤ) : DateRange :=
  { since := formatDay (today - 365), untilStr := formatDay today, note := none }

/-- The explanatory note both resolvers attach in auto-last-commit mode. -/
def autoLastCommitNote : String := "以最后一次提交为基准回溯365天"

/-- resolveTimeRange from analyze.ts lines 142-221: allTime first, then days,
then year, then explicit since/until completed from the generic fallback, then
the last-commit date minus 365 days clamped at 1970-01-01, and finally the
generic fallback window. -/
def resolveTimeRangeAnalyze (today : ℤ) (lastCommit : Except Unit (Option ℤ))
    (o : ResolveOptions) : Except Unit TimeRangeResult :=
  if o.allTime then .ok { since := none, untilStr := none, mode := .allTime, note := none }
  else
    match o.days with
    | some dv =>
      (calculateDaysRange today dv).map fun r =>
        { since := some r.since, untilStr := some r.untilStr, mode := .custom, note := r.note }
    | none =>
      match o.year with
      | some ys =>
        (parseYearOption ys).map fun r =>
          { since := some r.since, untilStr := some r.untilStr, mode := .custom, note := r.note }
      | none =>
        if o.since.isSome ∨ o.untilStr.isSome then
          .ok
            { since := some (o.since.getD (calculateTimeRange today).since)
              untilStr := some (o.untilStr.getD (calculateTimeRange today).untilStr)
              mode := .custom
              note := none }
        else
          match lastCommit with
          | .ok (some z) =>
            .ok
              { since := some (formatDay (max 0 (z - 365)))
                untilStr := some (formatDay z)
                mode := .autoLastCommit
                note := some autoLastCommitNote }
          | _ =>
            .ok
              { since := some (calculateTimeRange today).since
                untilStr := some (calculateTimeRange today).untilStr
                mode := .fallback
                note := none }

/-- resolveTimeRange from the shared time-range module: allTime first, then
year, then explicit since/until, then the last-commit date minus 365 days with
an explicit clamp to 1970-01-01, and finally the generic fallback window.
This resolver has no days tier. -/
def resolveTimeRangeCommon (today : ℤ) (lastCommit : Except Unit (Option ℤ))
    (o : ResolveOptions) : Except Unit TimeRangeResult :=
  if o.allTime then .ok { since := none, untilStr := none, mode := .allTime, note := none }
  else
    match o.year with
    | some ys =>
      (parseYearOption ys).map fun r =>
        { since := some r.since, untilStr := some r.untilStr, mode := .custom, note := r.note }
    | none =>
      if o.since.isSome ∨ o.untilStr.isSome then
        .ok
          { since := some (o.since.getD (calculateTimeRange today).since)
            untilStr := some (o.untilStr.getD (calculateTimeRange today).untilStr)
            mode := .custom
            note := none }
      else
        match lastCommit with
        | .ok (some z) =>
          if z - 365 < 0 then
            .ok
              { since := some "1970-01-01"
                untilStr := some (formatDay z)
                mode := .autoLastCommit
                note := some autoLastCommitNote }
          else
            .ok
              { since := some (formatDay (z - 365))
                untilStr := some (formatDay z)
                mode := .autoLastCommit
                note := some autoLastCommitNote }
        | _ =>
          .ok
            { since := some (calculateTimeRange today).since
              untilStr := some (calculateTimeRange today).untilStr
              mode := .fallback
              note := none }

/-! Projection lemmas for mergeInto. -/

@[simp] lemma mergeInto_name (e s : AuthorStats) : (mergeInto e s).name = e.name := rfl

@[simp] lemma mergeInto_email (e s : AuthorStats) : (mergeInto e s).email = e.email := rfl

@[simp] lemma mergeInto_totalCommits (e s : AuthorStats) :
    (mergeInto e s).totalCommits = e.totalCommits + s.totalCommits := rfl

@[simp] lemma mergeInto_workingHourCommits (e s : AuthorStats) :
    (mergeInto e s).workingHourCommits = e.workingHourCommits + s.workingHourCommits := rfl

@[simp] lemma mergeInto_overtimeCommits (e s : AuthorStats) :
    (mergeInto e s).overtimeCommits = e.overtimeCommits + s.overtimeCommits := rfl

@[simp] lemma mergeInto_weekdayCommits (e s : AuthorStats) :
    (mergeInto e s).weekdayCommits = e.weekdayCommits + s.weekdayCommits := rfl

@[simp] lemma mergeInto_weekendCommits (e s : AuthorStats) :
    (mergeInto e s).weekendCommits = e.weekendCommits + s.weekendCommits := rfl

lemma mergeInto_index996 (e s : AuthorStats) :
    (mergeInto e s).index996 =
      (e.index996 * (((e.totalCommits + s.totalCommits : ℕ) : ℚ) - (s.totalCommits : ℚ))
          + s.index996 * (s.totalCommits : ℚ))
        / ((e.totalCommits + s.totalCommits : ℕ) : ℚ) := rfl

lemma mergeInto_overTimeRadio (e s : AuthorStats) :
    (mergeInto e s).overTimeRadio =
      if 0 < (e.weekdayCommits + s.weekdayCommits) + (e.weekendCommits + s.weekendCommits)
          ∧ 0 < (e.workingHourCommits + s.workingHourCommits)
              + (e.overtimeCommits + s.overtimeCommits) then
        ((overTimeRadioOfCounts (e.workingHourCommits + s.workingHourCommits)
            (e.overtimeCommits + s.overtimeCommits) (e.weekdayCommits + s.weekdayCommits)
            (e.weekendCommits + s.weekendCommits) : ℤ) : ℚ)
      else e.overTimeRadio := rfl

lemma mergeInto_index996_weighted (e s : AuthorStats) :
    (mergeInto e s).index996 =
      (e.index996 * (e.totalCommits : ℚ) + s.index996 * (s.totalCommits : ℚ))
        / ((e.totalCommits : ℚ) + (s.totalCommits : ℚ)) := by
  rw [mergeInto_index996]
  push_cast
  ring_nf

/-! Arithmetic facts about the weekend-corrected ratio. -/

lemma jsRound_natCast_add (x : ℕ) (c : ℚ) : jsRound ((x : ℚ) + c) = x + jsRound c := by
  unfold jsRound
  rw [add_assoc, show ((x : ℚ)) = ((x : ℤ) : ℚ) by push_cast; ring, Int.floor_int_add]

lemma jsRound_nonneg {q : ℚ} (h : 0 ≤ q) : 0 ≤ jsRound q := by
  unfold jsRound
  rw [Int.le_floor]
  push_cast
  linarith

lemma jsRound_le_nat (y : ℕ) {q : ℚ} (h : q ≤ y) : jsRound q ≤ y := by
  unfold jsRound
  have hlt : ⌊q + 1 / 2⌋ < (y : ℤ) + 1 := by
    rw [Int.floor_lt]
    push_cast
    linarith
  omega

lemma weekend_term_nonneg (y m n : ℕ) : 0 ≤ (y : ℚ) * (n : ℚ) / ((m : ℚ) + (n : ℚ)) := by
  positivity

lemma weekend_term_le (y m n : ℕ) : (y : ℚ) * (n : ℚ) / ((m : ℚ) + (n : ℚ)) ≤ (y : ℚ) := by
  rcases Nat.eq_zero_or_pos (m + n) with h | h
  · obtain ⟨hm, hn⟩ := Nat.add_eq_zero.mp h
    subst hm hn
    simp
  · have hpos : (0 : ℚ) < (m : ℚ) + (n : ℚ) := by
      have : (0 : ℚ) < ((m + n : ℕ) : ℚ) := by exact_mod_cast h
      push_cast at this
      linarith
    rw [div_le_iff₀ hpos]
    have hn : (n : ℚ) ≤ (m : ℚ) + (n : ℚ) := by
      have : (0 : ℚ) ≤ (m : ℚ) := by positivity
      linarith
    nlinarith [show (0 : ℚ) ≤ (y : ℚ) by positivity]

/-- The ratio formula with the round split off the integer overtime part:
round(x + y*n/(m+n)) equals x plus the rounded weekend correction. -/
lemma overTimeRadioOfCounts_eq (y x m n : ℕ) :
    overTimeRadioOfCounts y x m n =
      ⌈((((x : ℤ) + jsRound ((y : ℚ) * (n : ℚ) / ((m : ℚ) + (n : ℚ)))) : ℤ) : ℚ)
          / ((y : ℚ) + (x : ℚ)) * 100⌉ := by
  unfold overTimeRadioOfCounts
  rw [jsRound_natCast_add]

/-- C3: for bucket counts with positive working-plus-overtime and positive
weekday-plus-weekend totals, the weekend-corrected overtime percentage lies in
the interval from 0 to 100, and, holding the other counts fixed, it is
monotonically non-decreasing in the overtime commit count. -/
theorem c3_radio_bounds_mono (y x m n : ℕ) (hmn : 0 < m + n) (hyx : 0 < y + x) :
    (0 ≤ overTimeRadioOfCounts y x m n ∧ overTimeRadioOfCounts y x m n ≤ 100) ∧
    ∀ x₂ : ℕ, x ≤ x₂ → overTimeRadioOfCounts y x m n ≤ overTimeRadioOfCounts y x₂ m n := by
  have hk0 : 0 ≤ jsRound ((y : ℚ) * (n : ℚ) / ((m : ℚ) + (n : ℚ))) :=
    jsRound_nonneg (weekend_term_nonneg y m n)
  have hky : jsRound ((y : ℚ) * (n : ℚ) / ((m : ℚ) + (n : ℚ))) ≤ y :=
    jsRound_le_nat y (weekend_term_le y m n)
  set k : ℤ := jsRound ((y : ℚ) * (n : ℚ) / ((m : ℚ) + (n : ℚ))) with hkdef
  have hk0q : (0 : ℚ) ≤ (k : ℚ) := by exact_mod_cast hk0
  have hkyq : (k : ℚ) ≤ (y : ℚ) := by exact_mod_cast hky
  have hden : (0 : ℚ) < (y : ℚ) + (x : ℚ) := by
    have : (0 : ℚ) < ((y + x : ℕ) : ℚ) := by exact_mod_cast hyx
    push_cast at this
    linarith
  constructor
  · constructor
    · rw [overTimeRadioOfCounts_eq, ← hkdef]
      apply Int.ceil_nonneg
      have hnum : (0 : ℚ) ≤ (((x : ℤ) + k : ℤ) : ℚ) := by
        push_cast
        positivity
      positivity
    · rw [overTimeRadioOfCounts_eq, ← hkdef]
      rw [Int.ceil_le]
      have h1 : (((x : ℤ) + k : ℤ) : ℚ) ≤ (y : ℚ) + (x : ℚ) := by
        push_cast
        linarith
      have h2 : (((x : ℤ) + k : ℤ) : ℚ) / ((y : ℚ) + (x : ℚ)) ≤ 1 :=
        (div_le_one hden).mpr h1
      push_cast at h2 ⊢
      nlinarith
  · intro x₂ hx
    have hden₂ : (0 : ℚ) < (y : ℚ) + (x₂ : ℚ) := by
      have : (x : ℚ) ≤ (x₂ : ℚ) := by exact_mod_cast hx
      linarith
    rw [overTimeRadioOfCounts_eq, overTimeRadioOfCounts_eq, ← hkdef]
    apply Int.ceil_le_ceil
    have hxq : (x : ℚ) ≤ (x₂ : ℚ) := by exact_mod_cast hx
    rw [div_mul_eq_mul_div, div_mul_eq_mul_div, div_le_div_iff hden hden₂]
    push_cast
    nlinarith [mul_nonneg (sub_nonneg.mpr hkyq) (sub_nonneg.mpr hxq)]

/-- Witness for C3 at concrete counts. -/
theorem c3_radio_bounds_mono_witness :
    (0 ≤ overTimeRadioOfCounts 3 2 4 1 ∧ overTimeRadioOfCounts 3 2 4 1 ≤ 100) ∧
    ∀ x₂ : ℕ, 2 ≤ x₂ → overTimeRadioOfCounts 3 2 4 1 ≤ overTimeRadioOfCounts 3 x₂ 4 1 :=
  c3_radio_bounds_mono 3 2 4 1 (by decide) (by decide)

/-- C2: folding an incoming record into an existing one sums the five counts,
replaces index996 by the commit-count-weighted average over the pre-update
totals, and recomputes overTimeRadio from the newly summed counts with the
weekend-corrected ceiling formula (stated under the positivity of the summed
denominators, without which the source keeps the previous ratio); the final
conjunct identifies this fold with the existing-entry branch of the
mergeAuthorStats loop. -/
theorem c2_mergeInto_spec (e s : AuthorStats)
    (hmn : 0 < (e.weekdayCommits + s.weekdayCommits) + (e.weekendCommits + s.weekendCommits))
    (hyx : 0 < (e.workingHourCommits + s.workingHourCommits)
        + (e.overtimeCommits + s.overtimeCommits)) :
    (mergeInto e s).totalCommits = e.totalCommits + s.totalCommits ∧
    (mergeInto e s).workingHourCommits = e.workingHourCommits + s.workingHourCommits ∧
    (mergeInto e s).overtimeCommits = e.overtimeCommits + s.overtimeCommits ∧
    (mergeInto e s).weekdayCommits = e.weekdayCommits + s.weekdayCommits ∧
    (mergeInto e s).weekendCommits = e.weekendCommits + s.weekendCommits ∧
    (mergeInto e s).index996 =
      (e.index996 * (e.totalCommits : ℚ) + s.index996 * (s.totalCommits : ℚ))
        / ((e.totalCommits : ℚ) + (s.totalCommits : ℚ)) ∧
    (mergeInto e s).overTimeRadio =
      ((overTimeRadioOfCounts (e.workingHourCommits + s.workingHourCommits)
          (e.overtimeCommits + s.overtimeCommits) (e.weekdayCommits + s.weekdayCommits)
          (e.weekendCommits + s.weekendCommits) : ℤ) : ℚ) ∧
    ∀ (mm : MergeMap) (acc : MergedMap), mapGet acc (targetKey mm s) = some e →
      step mm acc s = mapSet acc (targetKey mm s) (mergeInto e s) := by
  refine ⟨rfl, rfl, rfl, rfl, rfl, mergeInto_index996_weighted e s, ?_, ?_⟩
  · rw [mergeInto_overTimeRadio, if_pos ⟨hmn, hyx⟩]
  · intro mm acc h
    unfold step
    rw [h]

/-- Witness for C2 at concrete records. -/
theorem c2_mergeInto_spec_witness :
    (mergeInto
        { name := "a", email := "a@x", totalCommits := 3, workingHourCommits := 2,
          overtimeCommits := 1, weekdayCommits := 3, weekendCommits := 0,
          index996 := 1, overTimeRadio := 34 }
        { name := "b", email := "b@x", totalCommits := 2, workingHourCommits := 1,
          overtimeCommits := 1, weekdayCommits := 1, weekendCommits := 1,
          index996 := 2, overTimeRadio := 50 }).overTimeRadio =
      ((overTimeRadioOfCounts 3 2 4 1 : ℤ) : ℚ) :=
  (c2_mergeInto_spec _ _ (by decide) (by decide)).2.2.2.2.2.2.1

/-- C4: the ranking score is index996 itself when negative, and otherwise the
damped index plus the saturating overtime bonus; consequently every author
with a negative index scores strictly below every author with a non-negative
index, regardless of commit counts. -/
theorem c4_ranking_score_spec :
    (∀ s : AuthorStats, s.index996 < 0 → calculateRankingScore s = (s.index996 : ℝ)) ∧
    (∀ s : AuthorStats, 0 ≤ s.index996 →
      calculateRankingScore s =
        (s.index996 : ℝ) * min 1 (Real.logb 10 (max 1 (s.totalCommits : ℝ)) / 2)
          + (min s.overtimeCommits 50 : ℕ) / 5) ∧
    ∀ a b : AuthorStats, a.index996 < 0 → 0 ≤ b.index996 →
      calculateRankingScore a < calculateRankingScore b := by
  have hneg : ∀ s : AuthorStats, s.index996 < 0 → calculateRankingScore s = (s.index996 : ℝ) := by
    intro s h
    unfold calculateRankingScore
    rw [if_pos h]
  have hpos : ∀ s : AuthorStats, 0 ≤ s.index996 →
      calculateRankingScore s =
        (s.index996 : ℝ) * min 1 (Real.logb 10 (max 1 (s.totalCommits : ℝ)) / 2)
          + (min s.overtimeCommits 50 : ℕ) / 5 := by
    intro s h
    unfold calculateRankingScore
    rw [if_neg (not_lt.mpr h)]
  refine ⟨hneg, hpos, ?_⟩
  intro a b ha hb
  have h1 := hneg a ha
  have h2 := hpos b hb
  have hb' : (0 : ℝ) ≤ (b.index996 : ℝ) := by exact_mod_cast hb
  have hlog : 0 ≤ Real.logb 10 (max 1 (b.totalCommits : ℝ)) :=
    Real.logb_nonneg (by norm_num) (le_max_left _ _)
  have hfac : 0 ≤ min 1 (Real.logb 10 (max 1 (b.totalCommits : ℝ)) / 2) :=
    le_min zero_le_one (by linarith)
  have hterm : (0 : ℝ) ≤ ((min b.overtimeCommits 50 : ℕ) : ℝ) / 5 := by positivity
  have hmul := mul_nonneg hb' hfac
  have ha' : (a.index996 : ℝ) < 0 := by exact_mod_cast ha
  rw [h1, h2]
  linarith

/-- Witness for C4: an author with index -5 scores below one with index 0.1. -/
theorem c4_ranking_score_spec_witness :
    calculateRankingScore
        { name := "a", email := "a@x", totalCommits := 1000, workingHourCommits := 1000,
          overtimeCommits := 0, weekdayCommits := 1000, weekendCommits := 0,
          index996 := -5, overTimeRadio := 0 } <
      calculateRankingScore
        { name := "b", email := "b@x", totalCommits := 6, workingHourCommits := 3,
          overtimeCommits := 3, weekdayCommits := 5, weekendCommits := 1,
          index996 := 1 / 10, overTimeRadio := 50 } :=
  c4_ranking_score_spec.2.2 _ _ (by norm_num) (by norm_num)

/-- C7: calculateDaysRange on a positive integer N yields the window of the N
most recent whole days ending today (until = today, since = today - (N-1));
non-positive or non-integer input is a fatal input error; on the reference
date 2025-01-15 an input of 7 yields 2025-01-09 through 2025-01-15. -/
theorem c7_calculateDaysRange_spec :
    (∀ (today d : ℤ), 0 < d →
      calculateDaysRange today (some d) =
        .ok { since := formatDay (today - (d - 1)), untilStr := formatDay today,
              note := some ("最近" ++ toString d ++ "天") }) ∧
    (∀ (today d : ℤ), d ≤ 0 → calculateDaysRange today (some d) = .error ()) ∧
    (∀ today : ℤ, calculateDaysRange today none = .error ()) ∧
    calculateDaysRange (daysFromCivil 2025 1 15) (some 7) =
      .ok { since := "2025-01-09", untilStr := "2025-01-15", note := some "最近7天" } := by
  refine ⟨?_, ?_, fun _ => rfl, rfl⟩
  · intro today d h
    simp only [calculateDaysRange]
    rw [if_neg (not_le.mpr h)]
  · intro today d h
    simp only [calculateDaysRange]
    rw [if_pos h]

/-- Witness for C7 at a concrete positive day count. -/
theorem c7_calculateDaysRange_spec_witness :
    calculateDaysRange 0 (some 3) =
      .ok { since := formatDay (0 - (3 - 1)), untilStr := formatDay 0,
            note := some ("最近" ++ toString (3 : ℤ) ++ "天") } :=
  c7_calculateDaysRange_spec.1 0 3 (by norm_num)

/-- The year inputs the spec deems valid: after trimming, either a single
four-digit year at least 1970, or a four-digit dash four-digit range with
1970 at most the start and the start at most the end. -/
def validYearInput (s : String) : Prop :=
  (∃ y, matchSingleYear (jsTrim s) = some y ∧ 1970 ≤ y) ∨
  (∃ a b, matchYearRange (jsTrim s) = some (a, b) ∧ 1970 ≤ a ∧ a ≤ b)

lemma matchYearRange_single_none {s : String} {p : ℕ × ℕ}
    (h : matchYearRange s = some p) : matchSingleYear s = none := by
  unfold matchYearRange at h
  unfold matchSingleYear
  split at h
  · rename_i hcond
    rw [if_neg]
    rintro ⟨h4, _⟩
    omega
  · exact absurd h (by simp)

lemma parseYearOption_range_eq {s : String} {a b : ℕ}
    (h : matchYearRange (jsTrim s) = some (a, b)) :
    parseYearOption s =
      if a < 1970 ∨ b < 1970 ∨ b < a then .error ()
      else .ok { since := toString a ++ "-01-01", untilStr := toString b ++ "-12-31",
                 note := some (toString a ++ "-" ++ toString b ++ "年") } := by
  unfold parseYearOption
  rw [h]

lemma parseYearOption_single_eq {s : String} {y : ℕ}
    (hR : matchYearRange (jsTrim s) = none) (hS : matchSingleYear (jsTrim s) = some y) :
    parseYearOption s =
      if y < 1970 then .error ()
      else .ok { since := toString y ++ "-01-01", untilStr := toString y ++ "-12-31",
                 note := some (toString y ++ "年") } := by
  unfold parseYearOption
  rw [hR, hS]

lemma parseYearOption_none_eq {s : String}
    (hR : matchYearRange (jsTrim s) = none) (hS : matchSingleYear (jsTrim s) = none) :
    parseYearOption s = .error () := by
  unfold parseYearOption
  rw [hR, hS]

/-- C8: parseYearOption succeeds exactly on valid year inputs, returning the
January-first through December-31 window; all other inputs are a fatal input
error; concretely, 2023-2025 resolves to 2023-01-01 through 2025-12-31 while
1969 fails. -/
theorem c8_parseYearOption_spec :
    (∀ s : String, (∃ r, parseYearOption s = .ok r) ↔ validYearInput s) ∧
    (∀ (s : String) (a b : ℕ), matchYearRange (jsTrim s) = some (a, b) → 1970 ≤ a → a ≤ b →
      parseYearOption s =
        .ok { since := toString a ++ "-01-01", untilStr := toString b ++ "-12-31",
              note := some (toString a ++ "-" ++ toString b ++ "年") }) ∧
    (∀ (s : String) (y : ℕ), matchYearRange (jsTrim s) = none →
      matchSingleYear (jsTrim s) = some y → 1970 ≤ y →
      parseYearOption s =
        .ok { since := toString y ++ "-01-01", untilStr := toString y ++ "-12-31",
              note := some (toString y ++ "年") }) ∧
    parseYearOption "2023-2025" =
      .ok { since := "2023-01-01", untilStr := "2025-12-31", note := some "2023-2025年" } ∧
    parseYearOption "1969" = .error () := by
  refine ⟨?_, ?_, ?_, rfl, rfl⟩
  · intro s
    unfold validYearInput
    rcases hR : matchYearRange (jsTrim s) with _ | ⟨a, b⟩
    · rcases hS : matchSingleYear (jsTrim s) with _ | y
      · rw [parseYearOption_none_eq hR hS]
        simp
      · rw [parseYearOption_single_eq hR hS]
        by_cases hy : y < 1970
        · rw [if_pos hy]
          constructor
          · rintro ⟨r, hr⟩
            exact absurd hr (by simp)
          · rintro (⟨y', hy', hge⟩ | ⟨a, b, hab, _⟩)
            · cases hy'
              omega
            · cases hab
        · rw [if_neg hy]
          constructor
          · intro _
            exact Or.inl ⟨y, rfl, by omega⟩
          · intro _
            exact ⟨_, rfl⟩
    · rw [parseYearOption_range_eq hR]
      by_cases hc : a < 1970 ∨ b < 1970 ∨ b < a
      · rw [if_pos hc]
        constructor
        · rintro ⟨r, hr⟩
          exact absurd hr (by simp)
        · rintro (⟨y', hy', hge⟩ | ⟨a', b', hab, hga, hab'⟩)
          · rw [matchYearRange_single_none hR] at hy'
            cases hy'
          · cases hab
            omega
      · rw [if_neg hc]
        constructor
        · intro _
          exact Or.inr ⟨a, b, rfl, by omega, by omega⟩
        · intro _
          exact ⟨_, rfl⟩
  · intro s a b hab hga hle
    rw [parseYearOption_range_eq hab, if_neg (by omega)]
  · intro s y hR hS hy
    rw [parseYearOption_single_eq hR hS, if_neg (by omega)]

/-- Witness for C8 at a concrete single-year input. -/
theorem c8_parseYearOption_spec_witness :
    parseYearOption "1970" =
      .ok { since := "1970-01-01", untilStr := "1970-12-31", note := some "1970年" } :=
  c8_parseYearOption_spec.2.2.1 "1970" 1970 rfl rfl (by norm_num)

/-- C6: with no time option supplied and an available last-commit date, both
resolvers return until equal to that date and since equal to until minus 365
days clamped at 1970-01-01, in mode auto-last-commit with an explanatory
note. -/
theorem c6_auto_last_commit (today z : ℤ) (lc : Except Unit (Option ℤ)) (o : ResolveOptions)
    (hall : o.allTime = false) (hdays : o.days = none) (hyear : o.year = none)
    (hsince : o.since = none) (huntil : o.untilStr = none) (hlc : lc = .ok (some z)) :
    resolveTimeRangeAnalyze today lc o =
      .ok { since := some (formatDay (max 0 (z - 365))), untilStr := some (formatDay z),
            mode := .autoLastCommit, note := some autoLastCommitNote } ∧
    resolveTimeRangeCommon today lc o =
      .ok { since := some (formatDay (max 0 (z - 365))), untilStr := some (formatDay z),
            mode := .autoLastCommit, note := some autoLastCommitNote } := by
  subst hlc
  have h1970 : formatDay 0 = "1970-01-01" := by decide
  constructor
  · unfold resolveTimeRangeAnalyze
    rw [hall, hdays, hyear, hsince, huntil]
    simp
  · unfold resolveTimeRangeCommon
    rw [hall, hyear, hsince, huntil]
    rcases lt_or_le (z - 365) 0 with h | h
    · rw [max_eq_left h.le, h1970]
      simp [h]
    · rw [max_eq_right h]
      simp [not_lt.mpr h]

/-- Witness for C6 at a concrete last-commit date. -/
theorem c6_auto_last_commit_witness :
    resolveTimeRangeAnalyze 0 (.ok (some 100))
        { allTime := false, days := none, year := none, since := none, untilStr := none } =
      .ok { since := some (formatDay (max 0 (100 - 365))), untilStr := some (formatDay 100),
            mode := .autoLastCommit, note := some autoLastCommitNote } ∧
    resolveTimeRangeCommon 0 (.ok (some 100))
        { allTime := false, days := none, year := none, since := none, untilStr := none } =
      .ok { since := some (formatDay (max 0 (100 - 365))), untilStr := some (formatDay 100),
            mode := .autoLastCommit, note := some autoLastCommitNote } :=
  c6_auto_last_commit 0 100 _ _ rfl rfl rfl rfl rfl rfl

/-- C5 counterexample: with both a days flag and a year flag supplied, the
analyze resolver applies the days window but the shared time-range resolver
returns the year window (it has no days tier), so the two resolvers disagree
and the days flag does not win in the shared module. -/
theorem c5_counterexample :
    resolveTimeRangeCommon (daysFromCivil 2025 1 15) (.ok none)
        { allTime := false, days := some (some 7), year := some "2020",
          since := none, untilStr := none } =
      .ok { since := some "2020-01-01", untilStr := some "2020-12-31",
            mode := .custom, note := some "2020年" } ∧
    resolveTimeRangeAnalyze (daysFromCivil 2025 1 15) (.ok none)
        { allTime := false, days := some (some 7), year := some "2020",
          since := none, untilStr := none } =
      .ok { since := some "2025-01-09", untilStr := some "2025-01-15",
            mode := .custom, note := some "最近7天" } ∧
    ("2020-12-31" : String) ≠ "2025-01-15" :=
  ⟨rfl, rfl, by decide⟩

/-- C5 (amended): the allTime flag wins over every other option in both
resolvers; in the analyze resolver the days flag wins over the year flag; the
shared time-range resolver ignores the days flag entirely (its result is
unchanged by removing days), so there the year flag wins when both are
supplied. -/
theorem c5_priority_amended :
    (∀ (today : ℤ) (lc : Except Unit (Option ℤ)) (o : ResolveOptions), o.allTime = true →
      resolveTimeRangeAnalyze today lc o =
        .ok { since := none, untilStr := none, mode := .allTime, note := none } ∧
      resolveTimeRangeCommon today lc o =
        .ok { since := none, untilStr := none, mode := .allTime, note := none }) ∧
    (∀ (today : ℤ) (lc : Except Unit (Option ℤ)) (o : ResolveOptions) (dv : Option ℤ)
        (r : DateRange), o.allTime = false → o.days = some dv →
      calculateDaysRange today dv = .ok r →
      resolveTimeRangeAnalyze today lc o =
        .ok { since := some r.since, untilStr := some r.untilStr,
              mode := .custom, note := r.note }) ∧
    (∀ (today : ℤ) (lc : Except Unit (Option ℤ)) (o : ResolveOptions),
      resolveTimeRangeCommon today lc o =
        resolveTimeRangeCommon today lc { o with days := none }) := by
  refine ⟨?_, ?_, fun today lc o => rfl⟩
  · intro today lc o h
    constructor
    · unfold resolveTimeRangeAnalyze
      rw [h]
      rfl
    · unfold resolveTimeRangeCommon
      rw [h]
      rfl
  · intro today lc o dv r hall hdays hcalc
    unfold resolveTimeRangeAnalyze
    rw [hall, hdays]
    simp only [Bool.false_eq_true, if_false, hcalc, Except.map]

/-- Witness for C5 at concrete options. -/
theorem c5_priority_amended_witness :
    resolveTimeRangeAnalyze 0 (.ok none)
        { allTime := true, days := some (some 7), year := some "2020",
          since := none, untilStr := none } =
      .ok { since := none, untilStr := none, mode := .allTime, note := none } ∧
    resolveTimeRangeCommon 0 (.ok none)
        { allTime := true, days := some (some 7), year := some "2020",
          since := none, untilStr := none } =
      .ok { since := none, untilStr := none, mode := .allTime, note := none } :=
  c5_priority_amended.1 0 (.ok none) _ rfl

/-! Infrastructure for reasoning about the merge fold: the group of input
records attributed to one accumulator key, and the lookup of the fold result
as a function of that group. -/

/-- The sublist of records whose target key is k, in input order. -/
def groupOf (mm : MergeMap) (k : String) : List AuthorStats → List AuthorStats
  | [] => []
  | s :: rest => if targetKey mm s = k then s :: groupOf mm k rest else groupOf mm k rest

/-- The accumulated record of one group: the first member seeds the entry with
the primary identity, the rest are folded in. -/
def combineGroup (mm : MergeMap) : List AuthorStats → Option AuthorStats
  | [] => none
  | s :: rest => some (rest.foldl mergeInto (initRecord mm s))

lemma groupOf_eq_filter (mm : MergeMap) (k : String) (l : List AuthorStats) :
    groupOf mm k l = l.filter (fun s => decide (targetKey mm s = k)) := by
  induction l with
  | nil => rfl
  | cons s rest ih =>
    by_cases hk : targetKey mm s = k <;> simp [groupOf, List.filter_cons, hk, ih]

lemma groupOf_perm (mm : MergeMap) (k : String) {l₁ l₂ : List AuthorStats}
    (h : l₁.Perm l₂) : (groupOf mm k l₁).Perm (groupOf mm k l₂) := by
  rw [groupOf_eq_filter, groupOf_eq_filter]
  exact h.filter _

lemma groupOf_subset (mm : MergeMap) (k : String) {l : List AuthorStats} {s : AuthorStats}
    (h : s ∈ groupOf mm k l) : s ∈ l := by
  rw [groupOf_eq_filter] at h
  exact List.mem_of_mem_filter h

lemma mapGet_mapSet_self {m : MergedMap} {k : String} (v : AuthorStats)
    (h : (mapGet m k).isSome) : mapGet (mapSet m k v) k = some v := by
  induction m with
  | nil => simp [mapGet] at h
  | cons p rest ih =>
    by_cases hp : p.1 = k
    · simp [mapSet, mapGet, hp]
    · simp only [mapGet, if_neg hp] at h
      simp [mapSet, mapGet, hp, ih h]

lemma mapGet_mapSet_ne {m : MergedMap} {k k' : String} (v : AuthorStats) (h : k ≠ k') :
    mapGet (mapSet m k v) k' = mapGet m k' := by
  induction m with
  | nil => rfl
  | cons p rest ih =>
    by_cases hp : p.1 = k
    · have hp' : ¬p.1 = k' := by rw [hp]; exact h
      simp [mapSet, mapGet, hp, hp', h]
    · simp [mapSet, mapGet, hp, ih]

lemma mapGet_append_some {m₁ m₂ : MergedMap} {k : String} {v : AuthorStats}
    (h : mapGet m₁ k = some v) : mapGet (m₁ ++ m₂) k = some v := by
  induction m₁ with
  | nil => simp [mapGet] at h
  | cons p rest ih =>
    by_cases hp : p.1 = k
    · simp only [mapGet, if_pos hp] at h
      simp [mapGet, hp, h]
    · simp only [mapGet, if_neg hp] at h
      simp [mapGet, hp, ih h]

lemma mapGet_append_none {m₁ m₂ : MergedMap} {k : String}
    (h : mapGet m₁ k = none) : mapGet (m₁ ++ m₂) k = mapGet m₂ k := by
  induction m₁ with
  | nil => rfl
  | cons p rest ih =>
    by_cases hp : p.1 = k
    · simp [mapGet, hp] at h
    · simp only [mapGet, if_neg hp] at h
      simp [mapGet, hp, ih h]

/-- Effect of one loop iteration on a lookup. -/
lemma mapGet_step (mm : MergeMap) (acc : MergedMap) (s : AuthorStats) (k : String) :
    mapGet (step mm acc s) k =
      if targetKey mm s = k then
        some ((mapGet acc k).elim (initRecord mm s) (fun e => mergeInto e s))
      else mapGet acc k := by
  unfold step
  rcases h : mapGet acc (targetKey mm s) with _ | e
  · by_cases hk : targetKey mm s = k
    · subst hk
      rw [mapGet_append_none h, if_pos rfl, h]
      simp [mapGet]
    · rw [if_neg hk]
      rcases h2 : mapGet acc k with _ | v
      · rw [mapGet_append_none h2]
        simp [mapGet, hk]
      · rw [mapGet_append_some h2]
  · by_cases hk : targetKey mm s = k
    · subst hk
      rw [mapGet_mapSet_self _ (by rw [h]; rfl), if_pos rfl, h]
      rfl
    · rw [mapGet_mapSet_ne _ hk, if_neg hk]

/-- Lookup of the merge fold, as a function of the group of the key. -/
lemma foldl_step_lookup (mm : MergeMap) (l : List AuthorStats) :
    ∀ (acc : MergedMap) (k : String),
      mapGet (l.foldl (step mm) acc) k =
        (mapGet acc k).elim (combineGroup mm (groupOf mm k l))
          (fun e => some ((groupOf mm k l).foldl mergeInto e)) := by
  induction l with
  | nil =>
    intro acc k
    rcases h : mapGet acc k <;> simp [groupOf, combineGroup, h]
  | cons s rest ih =>
    intro acc k
    rw [List.foldl_cons, ih, mapGet_step]
    by_cases hk : targetKey mm s = k
    · rw [if_pos hk]
      rcases h : mapGet acc k with _ | e
      · simp [groupOf, hk, combineGroup]
      · simp [groupOf, hk, List.foldl_cons]
    · rw [if_neg hk]
      simp [groupOf, hk]

/-- Lookup of the full merge map built from the empty accumulator. -/
lemma mergeFold_lookup (mm : MergeMap) (l : List AuthorStats) (k : String) :
    mapGet (mergeFold mm l) k = combineGroup mm (groupOf mm k l) := by
  unfold mergeFold
  rw [foldl_step_lookup]
  rfl

/-! Closed forms for a fold of mergeInto over a group. -/

/-- Sum of the totalCommits of a list of records. -/
def sumTot (l : List AuthorStats) : ℕ := (l.map AuthorStats.totalCommits).sum

/-- Sum of the workingHourCommits of a list of records. -/
def sumWh (l : List AuthorStats) : ℕ := (l.map AuthorStats.workingHourCommits).sum

/-- Sum of the overtimeCommits of a list of records. -/
def sumOt (l : List AuthorStats) : ℕ := (l.map AuthorStats.overtimeCommits).sum

/-- Sum of the weekdayCommits of a list of records. -/
def sumWd (l : List AuthorStats) : ℕ := (l.map AuthorStats.weekdayCommits).sum

/-- Sum of the weekendCommits of a list of records. -/
def sumWe (l : List AuthorStats) : ℕ := (l.map AuthorStats.weekendCommits).sum

/-- Sum of index996 weighted by totalCommits over a list of records. -/
def sumIdxW (l : List AuthorStats) : ℚ :=
  (l.map (fun s => s.index996 * (s.totalCommits : ℚ))).sum

lemma foldl_mergeInto_counts (rest : List AuthorStats) : ∀ e : AuthorStats,
    (rest.foldl mergeInto e).totalCommits = e.totalCommits + sumTot rest ∧
    (rest.foldl mergeInto e).workingHourCommits = e.workingHourCommits + sumWh rest ∧
    (rest.foldl mergeInto e).overtimeCommits = e.overtimeCommits + sumOt rest ∧
    (rest.foldl mergeInto e).weekdayCommits = e.weekdayCommits + sumWd rest ∧
    (rest.foldl mergeInto e).weekendCommits = e.weekendCommits + sumWe rest := by
  induction rest with
  | nil =>
    intro e
    simp [sumTot, sumWh, sumOt, sumWd, sumWe]
  | cons r rs ih =>
    intro e
    rw [List.foldl_cons]
    obtain ⟨h1, h2, h3, h4, h5⟩ := ih (mergeInto e r)
    refine ⟨?_, ?_, ?_, ?_, ?_⟩ <;>
      simp [h1, h2, h3, h4, h5, sumTot, sumWh, sumOt, sumWd, sumWe] <;> omega

lemma foldl_mergeInto_index (rest : List AuthorStats) : ∀ e : AuthorStats, rest ≠ [] →
    (rest.foldl mergeInto e).index996 =
      (e.index996 * (e.totalCommits : ℚ) + sumIdxW rest)
        / ((e.totalCommits : ℚ) + (sumTot rest : ℚ)) := by
  induction rest with
  | nil => intro e h; exact absurd rfl h
  | cons r rs ih =>
    intro e _
    rcases List.eq_nil_or_concat rs with hrs | _
    · subst hrs
      rw [List.foldl_cons, List.foldl_nil, mergeInto_index996]
      simp only [sumIdxW, sumTot, List.map_cons, List.map_nil, List.sum_cons, List.sum_nil]
      push_cast
      ring_nf
    · have hrs : rs ≠ [] := by
        rename_i hex
        obtain ⟨L, b, hLb⟩ := hex
        subst hLb
        simp
      rw [List.foldl_cons, ih (mergeInto e r) hrs]
      have hnum : (mergeInto e r).index996 * ((mergeInto e r).totalCommits : ℚ) =
          e.index996 * (e.totalCommits : ℚ) + r.index996 * (r.totalCommits : ℚ) := by
        rw [mergeInto_index996_weighted, mergeInto_totalCommits]
        rcases Nat.eq_zero_or_pos (e.totalCommits + r.totalCommits) with h0 | h0
        · obtain ⟨he, hr⟩ := Nat.add_eq_zero.mp h0
          rw [he, hr]
          norm_num
        · have hne : ((e.totalCommits : ℚ) + (r.totalCommits : ℚ)) ≠ 0 := by
            have : (0 : ℚ) < ((e.totalCommits + r.totalCommits : ℕ) : ℚ) := by
              exact_mod_cast h0
            push_cast at this
            linarith
          rw [show ((e.totalCommits + r.totalCommits : ℕ) : ℚ)
              = (e.totalCommits : ℚ) + (r.totalCommits : ℚ) by push_cast; ring]
          rw [div_mul_cancel₀ _ hne]
      rw [hnum, mergeInto_totalCommits]
      have hsum : sumIdxW (r :: rs) = r.index996 * (r.totalCommits : ℚ) + sumIdxW rs := by
        simp [sumIdxW]
      have hsumT : sumTot (r :: rs) = r.totalCommits + sumTot rs := by
        simp [sumTot]
      rw [hsum, hsumT]
      push_cast
      ring_nf

lemma foldl_mergeInto_radio (rest : List AuthorStats) (e : AuthorStats) (hne : rest ≠ [])
    (hmn : 0 < (e.weekdayCommits + sumWd rest) + (e.weekendCommits + sumWe rest))
    (hyx : 0 < (e.workingHourCommits + sumWh rest) + (e.overtimeCommits + sumOt rest)) :
    (rest.foldl mergeInto e).overTimeRadio =
      ((overTimeRadioOfCounts (e.workingHourCommits + sumWh rest)
          (e.overtimeCommits + sumOt rest) (e.weekdayCommits + sumWd rest)
          (e.weekendCommits + sumWe rest) : ℤ) : ℚ) := by
  rcases List.eq_nil_or_concat rest with h | ⟨rs, r, hLb⟩
  · exact absurd h hne
  rw [List.concat_eq_append] at hLb
  subst hLb
  rw [List.foldl_append, List.foldl_cons, List.foldl_nil]
  obtain ⟨h1, h2, h3, h4, h5⟩ := foldl_mergeInto_counts rs e
  have hsWh : sumWh (rs ++ [r]) = sumWh rs + r.workingHourCommits := by simp [sumWh]
  have hsOt : sumOt (rs ++ [r]) = sumOt rs + r.overtimeCommits := by simp [sumOt]
  have hsWd : sumWd (rs ++ [r]) = sumWd rs + r.weekdayCommits := by simp [sumWd]
  have hsWe : sumWe (rs ++ [r]) = sumWe rs + r.weekendCommits := by simp [sumWe]
  rw [hsWd, hsWe] at hmn
  rw [hsWh, hsOt] at hyx
  rw [hsWh, hsOt, hsWd, hsWe]
  rw [mergeInto_overTimeRadio, h2, h3, h4, h5]
  rw [if_pos (by constructor <;> omega)]
  simp only [Nat.add_assoc]

/-! Permutation invariance of the sums. -/

lemma sumTot_perm {l₁ l₂ : List AuthorStats} (h : l₁.Perm l₂) : sumTot l₁ = sumTot l₂ :=
  (h.map _).sum_eq

lemma sumWh_perm {l₁ l₂ : List AuthorStats} (h : l₁.Perm l₂) : sumWh l₁ = sumWh l₂ :=
  (h.map _).sum_eq

lemma sumOt_perm {l₁ l₂ : List AuthorStats} (h : l₁.Perm l₂) : sumOt l₁ = sumOt l₂ :=
  (h.map _).sum_eq

lemma sumWd_perm {l₁ l₂ : List AuthorStats} (h : l₁.Perm l₂) : sumWd l₁ = sumWd l₂ :=
  (h.map _).sum_eq

lemma sumWe_perm {l₁ l₂ : List AuthorStats} (h : l₁.Perm l₂) : sumWe l₁ = sumWe l₂ :=
  (h.map _).sum_eq

lemma sumIdxW_perm {l₁ l₂ : List AuthorStats} (h : l₁.Perm l₂) : sumIdxW l₁ = sumIdxW l₂ :=
  (h.map _).sum_eq

lemma initRecord_statsProj (mm : MergeMap) (s : AuthorStats) :
    statsProj (initRecord mm s) = statsProj s := rfl

/-- The statistics projection of a combined group, under per-record positivity
of the two bucket pairs, depends only on the group up to permutation. -/
lemma combineGroup_statsProj_perm (mm : MergeMap) {g₁ g₂ : List AuthorStats}
    (hperm : g₁.Perm g₂)
    (hpos : ∀ s ∈ g₁, 0 < s.workingHourCommits + s.overtimeCommits ∧
      0 < s.weekdayCommits + s.weekendCommits) :
    (combineGroup mm g₁).map statsProj = (combineGroup mm g₂).map statsProj := by
  rcases g₁ with _ | ⟨s, rest⟩
  · rw [hperm.symm.eq_nil]
  rcases g₂ with _ | ⟨s', rest'⟩
  · exact absurd hperm.eq_nil (by simp)
  rcases rest with _ | ⟨t, ts⟩
  · have : [s].Perm (s' :: rest') := hperm
    have h2 : s' :: rest' = [s] := List.perm_singleton.mp this.symm
    cases h2
    rfl
  · have hlen := hperm.length_eq
    have hrest' : rest' ≠ [] := by
      intro hcon
      subst hcon
      simp at hlen
    have hrest : (t :: ts) ≠ [] := by simp
    show some (statsProj ((t :: ts).foldl mergeInto (initRecord mm s)))
      = some (statsProj (rest'.foldl mergeInto (initRecord mm s')))
    refine congrArg some ?_
    obtain ⟨c1, c2, c3, c4, c5⟩ := foldl_mergeInto_counts (t :: ts) (initRecord mm s)
    obtain ⟨d1, d2, d3, d4, d5⟩ := foldl_mergeInto_counts rest' (initRecord mm s')
    have hinit : ∀ (u : AuthorStats), (initRecord mm u).totalCommits = u.totalCommits ∧
        (initRecord mm u).workingHourCommits = u.workingHourCommits ∧
        (initRecord mm u).overtimeCommits = u.overtimeCommits ∧
        (initRecord mm u).weekdayCommits = u.weekdayCommits ∧
        (initRecord mm u).weekendCommits = u.weekendCommits ∧
        (initRecord mm u).index996 = u.index996 := fun u => ⟨rfl, rfl, rfl, rfl, rfl, rfl⟩
    have hTot : s.totalCommits + sumTot (t :: ts) = s'.totalCommits + sumTot rest' := by
      have := sumTot_perm hperm
      simp [sumTot] at this ⊢
      omega
    have hWh : s.workingHourCommits + sumWh (t :: ts)
        = s'.workingHourCommits + sumWh rest' := by
      have := sumWh_perm hperm
      simp [sumWh] at this ⊢
      omega
    have hOt : s.overtimeCommits + sumOt (t :: ts) = s'.overtimeCommits + sumOt rest' := by
      have := sumOt_perm hperm
      simp [sumOt] at this ⊢
      omega
    have hWd : s.weekdayCommits + sumWd (t :: ts) = s'.weekdayCommits + sumWd rest' := by
      have := sumWd_perm hperm
      simp [sumWd] at this ⊢
      omega
    have hWe : s.weekendCommits + sumWe (t :: ts) = s'.weekendCommits + sumWe rest' := by
      have := sumWe_perm hperm
      simp [sumWe] at this ⊢
      omega
    have hIdx : s.index996 * (s.totalCommits : ℚ) + sumIdxW (t :: ts)
        = s'.index996 * (s'.totalCommits : ℚ) + sumIdxW rest' := by
      have := sumIdxW_perm hperm
      simp [sumIdxW] at this ⊢
      linarith
    have hposs := hpos s (by simp)
    have hyx : 0 < ((initRecord mm s).workingHourCommits + sumWh (t :: ts))
        + ((initRecord mm s).overtimeCommits + sumOt (t :: ts)) := by
      rw [(hinit s).2.1, (hinit s).2.2.1]
      omega
    have hmn : 0 < ((initRecord mm s).weekdayCommits + sumWd (t :: ts))
        + ((initRecord mm s).weekendCommits + sumWe (t :: ts)) := by
      rw [(hinit s).2.2.2.1, (hinit s).2.2.2.2.1]
      omega
    have hyx' : 0 < ((initRecord mm s').workingHourCommits + sumWh rest')
        + ((initRecord mm s').overtimeCommits + sumOt rest') := by
      rw [(hinit s').2.1, (hinit s').2.2.1]
      omega
    have hmn' : 0 < ((initRecord mm s').weekdayCommits + sumWd rest')
        + ((initRecord mm s').weekendCommits + sumWe rest') := by
      rw [(hinit s').2.2.2.1, (hinit s').2.2.2.2.1]
      omega
    have hr1 := foldl_mergeInto_radio (t :: ts) (initRecord mm s) hrest hmn hyx
    have hr2 := foldl_mergeInto_radio rest' (initRecord mm s') hrest' hmn' hyx'
    have hi1 := foldl_mergeInto_index (t :: ts) (initRecord mm s) hrest
    have hi2 := foldl_mergeInto_index rest' (initRecord mm s') hrest'
    unfold statsProj
    rw [c1, c2, c3, c4, c5, d1, d2, d3, d4, d5, hr1, hr2, hi1, hi2]
    rw [(hinit s).1, (hinit s).2.1, (hinit s).2.2.1, (hinit s).2.2.2.1, (hinit s).2.2.2.2.1,
      (hinit s).2.2.2.2.2, (hinit s').1, (hinit s').2.1, (hinit s').2.2.1,
      (hinit s').2.2.2.1, (hinit s').2.2.2.2.1, (hinit s').2.2.2.2.2]
    rw [hTot, hWh, hOt, hWd, hWe, hIdx]
    have hTotQ : (s.totalCommits : ℚ) + (sumTot (t :: ts) : ℚ)
        = (s'.totalCommits : ℚ) + (sumTot rest' : ℚ) := by
      exact_mod_cast hTot
    rw [hTotQ]

/-- C1 (amended): when every input record has positive working-plus-overtime
and positive weekday-plus-weekend counts, the merge result is independent of
input order: any permutation of the input yields, for every accumulator key,
the same merged counts, index996 and overTimeRadio. -/
theorem c1_merge_order_independent (mm : MergeMap) (l₁ l₂ : List AuthorStats)
    (hperm : l₁.Perm l₂)
    (hpos : ∀ s ∈ l₁, 0 < s.workingHourCommits + s.overtimeCommits ∧
      0 < s.weekdayCommits + s.weekendCommits) (k : String) :
    (mapGet (mergeFold mm l₁) k).map statsProj
      = (mapGet (mergeFold mm l₂) k).map statsProj := by
  rw [mergeFold_lookup, mergeFold_lookup]
  exact combineGroup_statsProj_perm mm (groupOf_perm mm k hperm)
    (fun s hs => hpos s (groupOf_subset mm k hs))

/-- Witness for C1 at a concrete pair of permuted inputs. -/
theorem c1_merge_order_independent_witness :
    (mapGet (mergeFold []
        [{ name := "a", email := "p@x", totalCommits := 3, workingHourCommits := 2,
           overtimeCommits := 1, weekdayCommits := 3, weekendCommits := 0,
           index996 := 1, overTimeRadio := 34 },
         { name := "b", email := "P@x", totalCommits := 2, workingHourCommits := 1,
           overtimeCommits := 1, weekdayCommits := 1, weekendCommits := 1,
           index996 := 2, overTimeRadio := 50 }]) "p@x").map statsProj
      = (mapGet (mergeFold []
        [{ name := "b", email := "P@x", totalCommits := 2, workingHourCommits := 1,
           overtimeCommits := 1, weekdayCommits := 1, weekendCommits := 1,
           index996 := 2, overTimeRadio := 50 },
         { name := "a", email := "p@x", totalCommits := 3, workingHourCommits := 2,
           overtimeCommits := 1, weekdayCommits := 3, weekendCommits := 0,
           index996 := 1, overTimeRadio := 34 }]) "p@x").map statsProj :=
  c1_merge_order_independent [] _ _ (by decide) (by decide) "p@x"

/-- C1 counterexample: for records whose counts are all zero, the merged
overTimeRadio keeps the first-seen value (the recomputation guard fails), so
the two orders of the same two records yield different merged overTimeRadio:
the claim fails without a positivity restriction. -/
theorem c1_counterexample :
    [({ name := "a", email := "x@x", totalCommits := 0, workingHourCommits := 0,
        overtimeCommits := 0, weekdayCommits := 0, weekendCommits := 0,
        index996 := 0, overTimeRadio := 7 } : AuthorStats),
     { name := "b", email := "x@x", totalCommits := 0, workingHourCommits := 0,
       overtimeCommits := 0, weekdayCommits := 0, weekendCommits := 0,
       index996 := 0, overTimeRadio := 13 }].Perm
      [{ name := "b", email := "x@x", totalCommits := 0, workingHourCommits := 0,
         overtimeCommits := 0, weekdayCommits := 0, weekendCommits := 0,
         index996 := 0, overTimeRadio := 13 },
       { name := "a", email := "x@x", totalCommits := 0, workingHourCommits := 0,
         overtimeCommits := 0, weekdayCommits := 0, weekendCommits := 0,
         index996 := 0, overTimeRadio := 7 }] ∧
    (mergeAuthorStats
        [{ name := "a", email := "x@x", totalCommits := 0, workingHourCommits := 0,
           overtimeCommits := 0, weekdayCommits := 0, weekendCommits := 0,
           index996 := 0, overTimeRadio := 7 },
         { name := "b", email := "x@x", totalCommits := 0, workingHourCommits := 0,
           overtimeCommits := 0, weekdayCommits := 0, weekendCommits := 0,
           index996 := 0, overTimeRadio := 13 }] []).map AuthorStats.overTimeRadio
      = [7] ∧
    (mergeAuthorStats
        [{ name := "b", email := "x@x", totalCommits := 0, workingHourCommits := 0,
           overtimeCommits := 0, weekdayCommits := 0, weekendCommits := 0,
           index996 := 0, overTimeRadio := 13 },
         { name := "a", email := "x@x", totalCommits := 0, workingHourCommits := 0,
           overtimeCommits := 0, weekdayCommits := 0, weekendCommits := 0,
           index996 := 0, overTimeRadio := 7 }] []).map AuthorStats.overTimeRadio
      = [13] ∧
    ([(7 : ℚ)] : List ℚ) ≠ [13] := by
  refine ⟨by decide, by decide, by decide, by decide⟩

/-! Canonical identities: records whose lowercased email has no merge-map
entry keep their own name, email and key. -/

lemma targetKey_canonical {mm : MergeMap} {s : AuthorStats}
    (h : mapGetId mm (jsToLower s.email) = none) : targetKey mm s = jsToLower s.email := by
  unfold targetKey targetIdentity
  rw [h]

lemma initRecord_canonical {mm : MergeMap} {s : AuthorStats}
    (h : mapGetId mm (jsToLower s.email) = none) : initRecord mm s = s := by
  unfold initRecord targetIdentity
  rw [h]

lemma foldl_step_canonical (mm : MergeMap) (stats : List AuthorStats) :
    ∀ acc : MergedMap,
      (∀ s ∈ stats, mapGetId mm (jsToLower s.email) = none) →
      (∀ s ∈ stats, mapGet acc (jsToLower s.email) = none) →
      stats.Pairwise (fun a b => jsToLower a.email ≠ jsToLower b.email) →
      stats.foldl (step mm) acc = acc ++ stats.map (fun s => (jsToLower s.email, s)) := by
  induction stats with
  | nil =>
    intro acc _ _ _
    simp
  | cons s rest ih =>
    intro acc hmm hacc hpw
    rw [List.foldl_cons]
    have hs := hmm s (by simp)
    have hstep : step mm acc s = acc ++ [(jsToLower s.email, s)] := by
      unfold step
      rw [targetKey_canonical hs, initRecord_canonical hs, hacc s (by simp)]
    rw [hstep]
    have hacc' : ∀ t ∈ rest, mapGet (acc ++ [(jsToLower s.email, s)]) (jsToLower t.email) = none := by
      intro t ht
      have hne : jsToLower s.email ≠ jsToLower t.email := (List.pairwise_cons.mp hpw).1 t ht
      rw [mapGet_append_none (hacc t (by simp [ht]))]
      simp [mapGet, hne]
    rw [ih _ (fun t ht => hmm t (by simp [ht])) hacc' (List.Pairwise.of_cons hpw)]
    simp

/-- C9: merging a list whose identities are all canonical (no lowercased email
is redirected by the merge map, and the lowercased emails are pairwise
distinct) returns the very same list of records. -/
theorem c9_merge_idempotent (mm : MergeMap) (stats : List AuthorStats)
    (hcanon : ∀ s ∈ stats, mapGetId mm (jsToLower s.email) = none)
    (hdistinct : stats.Pairwise (fun a b => jsToLower a.email ≠ jsToLower b.email)) :
    mergeAuthorStats stats mm = stats := by
  unfold mergeAuthorStats mergeFold
  rw [foldl_step_canonical mm stats [] hcanon (fun s _ => rfl) hdistinct]
  have hid : (Prod.snd ∘ fun s : AuthorStats => (jsToLower s.email, s)) = id := rfl
  simp only [List.nil_append, List.map_map, hid, List.map_id]

/-- Witness for C9 at a concrete canonical list. -/
theorem c9_merge_idempotent_witness :
    mergeAuthorStats
        [{ name := "a", email := "a@x", totalCommits := 5, workingHourCommits := 3,
           overtimeCommits := 2, weekdayCommits := 4, weekendCommits := 1,
           index996 := 1, overTimeRadio := 40 },
         { name := "b", email := "b@x", totalCommits := 7, workingHourCommits := 6,
           overtimeCommits := 1, weekdayCommits := 7, weekendCommits := 0,
           index996 := 2, overTimeRadio := 15 }] []
      = [{ name := "a", email := "a@x", totalCommits := 5, workingHourCommits := 3,
           overtimeCommits := 2, weekdayCommits := 4, weekendCommits := 1,
           index996 := 1, overTimeRadio := 40 },
         { name := "b", email := "b@x", totalCommits := 7, workingHourCommits := 6,
           overtimeCommits := 1, weekdayCommits := 7, weekendCommits := 0,
           index996 := 2, overTimeRadio := 15 }] :=
  c9_merge_idempotent [] _ (by decide) (by decide)

/-! Keys of the merge fold are pairwise distinct. -/

lemma mapSet_keys (m : MergedMap) (k : String) (v : AuthorStats) :
    (mapSet m k v).map Prod.fst = m.map Prod.fst := by
  induction m with
  | nil => rfl
  | cons p rest ih =>
    by_cases hp : p.1 = k <;> simp [mapSet, hp, ih]

lemma mapGet_eq_none_iff (m : MergedMap) (k : String) :
    mapGet m k = none ↔ k ∉ m.map Prod.fst := by
  induction m with
  | nil => simp [mapGet]
  | cons p rest ih =>
    by_cases hp : p.1 = k
    · simp [mapGet, hp]
    · simp only [mapGet, if_neg hp, List.map_cons, List.mem_cons, ih]
      constructor
      · rintro hnot hor
        rcases hor with h1 | h2
        · exact hp h1.symm
        · exact hnot h2
      · intro h h2
        exact h (Or.inr h2)

lemma step_keys_nodup (mm : MergeMap) (acc : MergedMap) (s : AuthorStats)
    (h : (acc.map Prod.fst).Nodup) : ((step mm acc s).map Prod.fst).Nodup := by
  unfold step
  rcases hg : mapGet acc (targetKey mm s) with _ | e
  · rw [List.map_append]
    refine List.Nodup.append h (List.nodup_singleton _) ?_
    intro x hx hx2
    simp at hx2
    subst hx2
    exact (mapGet_eq_none_iff acc (targetKey mm s)).mp hg hx
  · rw [mapSet_keys]
    exact h

lemma mergeFold_keys_nodup (mm : MergeMap) (stats : List AuthorStats) :
    ((mergeFold mm stats).map Prod.fst).Nodup := by
  unfold mergeFold
  have hgen : ∀ (l : List AuthorStats) (acc : MergedMap), (acc.map Prod.fst).Nodup →
      ((l.foldl (step mm) acc).map Prod.fst).Nodup := by
    intro l
    induction l with
    | nil => exact fun acc h => h
    | cons s rest ih =>
      intro acc h
      rw [List.foldl_cons]
      exact ih _ (step_keys_nodup mm acc s h)
  exact hgen stats [] (by simp)

/-- C10: the merge groups records by lowercased email even without a merge-map
entry: the accumulator keys are always pairwise distinct, and two records
whose emails agree after lowercasing, neither redirected by the merge map,
produce a single combined entry keyed by the lowercased email and carrying the
first-seen name and email, with the counts summed. -/
theorem c10_merge_by_lowercased_email :
    (∀ (mm : MergeMap) (stats : List AuthorStats),
      ((mergeFold mm stats).map Prod.fst).Nodup) ∧
    ∀ (mm : MergeMap) (a b : AuthorStats),
      mapGetId mm (jsToLower a.email) = none → mapGetId mm (jsToLower b.email) = none →
      jsToLower b.email = jsToLower a.email →
      mergeFold mm [a, b] = [(jsToLower a.email, mergeInto a b)] ∧
      mergeAuthorStats [a, b] mm = [mergeInto a b] ∧
      (mergeInto a b).name = a.name ∧ (mergeInto a b).email = a.email ∧
      (mergeInto a b).totalCommits = a.totalCommits + b.totalCommits := by
  refine ⟨mergeFold_keys_nodup, ?_⟩
  intro mm a b ha hb heq
  have hfold : mergeFold mm [a, b] = [(jsToLower a.email, mergeInto a b)] := by
    unfold mergeFold
    rw [List.foldl_cons, List.foldl_cons, List.foldl_nil]
    have h1 : step mm [] a = [(jsToLower a.email, a)] := by
      unfold step
      rw [targetKey_canonical ha, initRecord_canonical ha]
      rfl
    rw [h1]
    unfold step
    rw [targetKey_canonical hb, heq]
    simp [mapGet, mapSet]
  refine ⟨hfold, ?_, rfl, rfl, rfl⟩
  unfold mergeAuthorStats
  rw [hfold]
  rfl

/-- Witness for C10 at two records differing only in email letter case. -/
theorem c10_merge_by_lowercased_email_witness :
    mergeAuthorStats
        [{ name := "a", email := "Foo@X.com", totalCommits := 5, workingHourCommits := 3,
           overtimeCommits := 2, weekdayCommits := 4, weekendCommits := 1,
           index996 := 1, overTimeRadio := 40 },
         { name := "b", email := "foo@x.com", totalCommits := 7, workingHourCommits := 6,
           overtimeCommits := 1, weekdayCommits := 7, weekendCommits := 0,
           index996 := 2, overTimeRadio := 15 }] []
      = [mergeInto
          { name := "a", email := "Foo@X.com", totalCommits := 5, workingHourCommits := 3,
            overtimeCommits := 2, weekdayCommits := 4, weekendCommits := 1,
            index996 := 1, overTimeRadio := 40 }
          { name := "b", email := "foo@x.com", totalCommits := 7, workingHourCommits := 6,
            overtimeCommits := 1, weekdayCommits := 7, weekendCommits := 0,
            index996 := 2, overTimeRadio := 15 }] :=
  (c10_merge_by_lowercased_email.2 [] _ _ rfl rfl (by decide)).2.1
